import Mathlib

/-
  Verification of the Context-Window Predictor in
  src/Lecture-1-What-is-LLM/simpleLLM.py.

  The source is a teaching toy: a literal dictionary `training_data`
  mapping word tuples to candidate next words, and a class `SequenceLLM`
  whose method `generate_text` repeatedly extends an input word sequence
  by looking up the trailing `history_size` words (falling back to the
  trailing single word) and appending a randomly chosen candidate, or
  stopping ("stuck") when neither context is a key.

  Shallow embedding notes:
  - a Python tuple key and the word sequence are both `List String`;
  - the dictionary literal becomes an association list (`lookupKey`
    models `dict.__contains__` / `dict.__getitem__`; the literal has no
    duplicate keys, so first-match lookup agrees with the Python dict);
  - `random.choice(lst)` is modelled by an oracle stream `r : Nat -> Nat`
    of index draws, one per loop iteration: the choice at iteration `i`
    is the element at index `r i % lst.length`, so quantifying over `r`
    quantifies over every possible sequence of random outcomes;
  - the `print` of the stuck notice is modelled by the Boolean flag
    returned alongside the result string (`true` iff the notice fired);
  - Python `seq[-n:]` is `lastN n` (for `n = 0` Python yields the whole
    list, which the definition mirrors);
  - `starting_text.lower().replace(., ).replace(?, ).split()` is
    `normalizeText`: char-level lowercasing, removal of every . and ?
    character, and whitespace splitting that drops empty pieces;
  - `" ".join(seq)` is `joinWords`.
-/

/-- One entry per line 10-38 of simpleLLM.py, in the literal order. -/
def training_data : List (List String × List String) := [
  (["kitne", "aadmi"], ["the?"]),
  (["kitne", "aadmi", "the?"], ["Sardar", "do", "the."]),
  (["ek", "chutki", "sindoor"], ["ki"]),
  (["sindoor", "ki", "keemat"], ["tum", "kya", "jaano"]),
  (["tum", "kya", "jaano"], ["Ramesh", "Babu."]),
  (["bade", "bade", "deshon"], ["mein"]),
  (["deshon", "mein", "aisi"], ["choti"]),
  (["aisi", "choti", "choti"], ["baatein"]),
  (["choti", "choti", "baatein"], ["hoti", "rehti", "hai", "Senorita."]),
  (["all", "izz"], ["well!"]),
  (["dost", "fail"], ["ho"]),
  (["dost", "fail", "ho"], ["jaye"]),
  (["jaye", "toh"], ["dukh"]),
  (["dukh", "hota"], ["hai."]),
  (["pani", "puri"], ["khana"]),
  (["chai", "garam"], ["hai"]),
  (["mera", "naam"], ["Amit", "Rohan"]),
  (["mera", "naam", "hai"], ["Amit", "Rohan"])]

/-- First-match lookup in an association list; models Python dict
membership and indexing for the literal map (whose keys are distinct). -/
def lookupKey (m : List (List String × List String)) (k : List String) :
    Option (List String) :=
  match m with
  | [] => none
  | (k0, v0) :: rest => if k0 = k then some v0 else lookupKey rest k

/-- Python `seq[-n:]`: the trailing `n` elements (the whole list when
`n = 0`, since Python `-0` is `0`, or when `n` exceeds the length). -/
def lastN (n : Nat) (l : List String) : List String :=
  if n = 0 then l else l.drop (l.length - n)

/-- Python `random.choice(ws)` with the oracle draw `x`: the element at
index `x % ws.length` (never called on an empty list by the source). -/
def choice (ws : List String) (x : Nat) : String :=
  ws.getD (x % ws.length) ""

/-- The class of lines 48-55 of simpleLLM.py: constructor stores the
training data and the history size (default 3). -/
structure SequenceLLM where
  training_data : List (List String × List String)
  history_size : Nat

/-- One iteration of the loop body (lines 65-90): look up the trailing
`history_size` words; on a miss, look up the trailing single word; return
the chosen word to append, or `none` for the stuck branch. -/
def genStep (llm : SequenceLLM) (seq : List String) (x : Nat) :
    Option String :=
  match lookupKey llm.training_data (lastN llm.history_size seq) with
  | some ws => some (choice ws x)
  | none =>
    match lookupKey llm.training_data (lastN 1 seq) with
    | some ws => some (choice ws x)
    | none => none

/-- The `for _ in range(max_length)` loop of lines 65-90: `fuel` is the
remaining iteration count, `i` indexes the oracle stream, and the Boolean
records whether the stuck notice was printed (the `break` branch). -/
def genLoop (llm : SequenceLLM) (r : Nat → Nat) :
    Nat → Nat → List String → List String × Bool
  | 0, _, seq => (seq, false)
  | fuel + 1, i, seq =>
    match genStep llm seq (r i) with
    | some w => genLoop llm r fuel (i + 1) (seq ++ [w])
    | none => (seq, true)

/-- Splitting a character list into words at whitespace, dropping empty
pieces: Python `str.split()` with no separator. The accumulator holds the
current word reversed. -/
def splitWordsAux : List Char → List Char → List String
  | [], [] => []
  | [], a :: as => [String.mk ((a :: as).reverse)]
  | c :: cs, acc =>
    if c.isWhitespace then
      match acc with
      | [] => splitWordsAux cs []
      | a :: as => String.mk ((a :: as).reverse) :: splitWordsAux cs []
    else splitWordsAux cs (c :: acc)

/-- Line 62 of simpleLLM.py:
`starting_text.lower().replace(., ).replace(?, ).split()`. -/
def normalizeText (s : String) : List String :=
  splitWordsAux
    (((s.data.map Char.toLower).filter (fun c => c ≠ '.')).filter
      (fun c => c ≠ '?')) []

/-- Python `" ".join(seq)` (line 93). -/
def joinWords : List String → String
  | [] => ""
  | [w] => w
  | w :: ws => w ++ " " ++ joinWords ws

/-- Lines 57-93 of simpleLLM.py: `generate_text(starting_text, max_length)`
on a `SequenceLLM`, with the oracle stream `r` supplying the random draws.
Returns the joined sentence and whether the stuck notice was printed. -/
def generate_text (llm : SequenceLLM) (r : Nat → Nat) (starting_text : String)
    (max_length : Nat) : String × Bool :=
  let res := genLoop llm r max_length 0 (normalizeText starting_text)
  (joinWords res.1, res.2)

/-- Line 99 of simpleLLM.py: `my_llm = SequenceLLM(training_data)` with the
default `history_size = 3`. -/
def my_llm : SequenceLLM := ⟨training_data, 3⟩

/-- Explicit-state embedding of the method call `llm.generate_text(...)`:
the method body (lines 57-93) contains no assignment to `self.training_data`
or `self.history_size`, so the post-state is the receiver unchanged. -/
def generate_text_method (llm : SequenceLLM) (r : Nat → Nat)
    (starting_text : String) (max_length : Nat) :
    SequenceLLM × (String × Bool) :=
  (llm, generate_text llm r starting_text max_length)

/-! ### Supporting lemmas -/

theorem lookupKey_mem (m : List (List String × List String))
    (k : List String) (v : List String) (h : lookupKey m k = some v) :
    (k, v) ∈ m := by
  induction m with
  | nil => simp [lookupKey] at h
  | cons p rest ih =>
    obtain ⟨k0, v0⟩ := p
    by_cases hk : k0 = k
    · subst hk
      simp [lookupKey] at h
      subst h
      exact List.mem_cons_self _ _
    · simp [lookupKey, hk] at h
      exact List.mem_cons_of_mem _ (ih h)

theorem lookup_of_mem (k v : List String) (h : (k, v) ∈ training_data) :
    lookupKey training_data k = some v := by
  have hall : ∀ p ∈ training_data, lookupKey training_data p.1 = some p.2 := by
    decide
  exact hall (k, v) h

theorem training_values_ne_nil (k v : List String)
    (h : lookupKey training_data k = some v) : v ≠ [] := by
  have hall : ∀ p ∈ training_data, p.2 ≠ ([] : List String) := by decide
  exact hall (k, v) (lookupKey_mem _ _ _ h)

theorem getD_mem (l : List String) (n : Nat) (d : String)
    (h : n < l.length) : l.getD n d ∈ l := by
  induction l generalizing n with
  | nil => simp at h
  | cons a t ih =>
    cases n with
    | zero => simp [List.getD]
    | succ m =>
      have hm : m < t.length := by simpa using h
      simpa [List.getD] using List.mem_cons_of_mem a
        (by simpa [List.getD] using ih m hm)

theorem choice_mem (ws : List String) (x : Nat) (h : ws ≠ []) :
    choice ws x ∈ ws := by
  have hlen : 0 < ws.length := List.length_pos.mpr h
  exact getD_mem ws (x % ws.length) "" (Nat.mod_lt x hlen)

theorem genLoop_zero (llm : SequenceLLM) (r : Nat → Nat) (i : Nat)
    (seq : List String) : genLoop llm r 0 i seq = (seq, false) := rfl

theorem genLoop_of_step_some (llm : SequenceLLM) (r : Nat → Nat)
    (fuel i : Nat) (seq : List String) (w : String) (hf : fuel ≠ 0)
    (h : genStep llm seq (r i) = some w) :
    genLoop llm r fuel i seq = genLoop llm r (fuel - 1) (i + 1) (seq ++ [w]) := by
  cases fuel with
  | zero => exact absurd rfl hf
  | succ m =>
    have hexp : genLoop llm r (m + 1) i seq =
        match genStep llm seq (r i) with
        | some w => genLoop llm r m (i + 1) (seq ++ [w])
        | none => (seq, true) := rfl
    rw [hexp, h]
    rfl

theorem genLoop_of_step_none (llm : SequenceLLM) (r : Nat → Nat)
    (fuel i : Nat) (seq : List String) (hf : fuel ≠ 0)
    (h : genStep llm seq (r i) = none) :
    genLoop llm r fuel i seq = (seq, true) := by
  cases fuel with
  | zero => exact absurd rfl hf
  | succ m =>
    have hexp : genLoop llm r (m + 1) i seq =
        match genStep llm seq (r i) with
        | some w => genLoop llm r m (i + 1) (seq ++ [w])
        | none => (seq, true) := rfl
    rw [hexp, h]

theorem genStep_eq_none (llm : SequenceLLM) (seq : List String) (x : Nat)
    (h1 : lookupKey llm.training_data (lastN llm.history_size seq) = none)
    (h2 : lookupKey llm.training_data (lastN 1 seq) = none) :
    genStep llm seq x = none := by
  unfold genStep
  rw [h1, h2]

theorem genStep_eq_some (llm : SequenceLLM) (seq : List String) (x : Nat)
    (ws : List String)
    (h : lookupKey llm.training_data (lastN llm.history_size seq) = some ws) :
    genStep llm seq x = some (choice ws x) := by
  unfold genStep
  rw [h]

theorem genLoop_fst_append (llm : SequenceLLM) (r : Nat → Nat) :
    ∀ (fuel i : Nat) (seq : List String), ∃ app : List String,
      (genLoop llm r fuel i seq).1 = seq ++ app ∧ app.length ≤ fuel := by
  intro fuel
  induction fuel with
  | zero => intro i seq; exact ⟨[], by simp [genLoop_zero]⟩
  | succ m ih =>
    intro i seq
    have hexp : genLoop llm r (m + 1) i seq =
        match genStep llm seq (r i) with
        | some w => genLoop llm r m (i + 1) (seq ++ [w])
        | none => (seq, true) := rfl
    cases hstep : genStep llm seq (r i) with
    | none =>
      refine ⟨[], ?_, by simp⟩
      rw [hexp, hstep]
      simp
    | some w =>
      obtain ⟨app, happ, hlen⟩ := ih (i + 1) (seq ++ [w])
      refine ⟨w :: app, ?_, by simpa using Nat.succ_le_succ hlen⟩
      rw [hexp, hstep, happ]
      simp

theorem data_append (s t : String) : (s ++ t).data = s.data ++ t.data := rfl

theorem splitWordsAux_mem_ne (cs : List Char) :
    ∀ (acc : List Char) (w : String), w ∈ splitWordsAux cs acc →
      w.data ≠ [] := by
  induction cs with
  | nil =>
    intro acc w hw
    cases acc with
    | nil => simp [splitWordsAux] at hw
    | cons a as =>
      simp [splitWordsAux] at hw
      subst hw
      simp
  | cons c cs ih =>
    intro acc w hw
    by_cases hws : c.isWhitespace
    · cases acc with
      | nil =>
        rw [show splitWordsAux (c :: cs) [] = splitWordsAux cs []
              from by simp [splitWordsAux, hws]] at hw
        exact ih [] w hw
      | cons a as =>
        rw [show splitWordsAux (c :: cs) (a :: as) =
              String.mk ((a :: as).reverse) :: splitWordsAux cs []
              from by simp [splitWordsAux, hws]] at hw
        rcases List.mem_cons.mp hw with heq | hmem
        · subst heq; simp
        · exact ih [] w hmem
    · rw [show splitWordsAux (c :: cs) acc = splitWordsAux cs (c :: acc)
            from by simp [splitWordsAux, hws]] at hw
      exact ih (c :: acc) w hw

theorem joinWords_ne_empty (w : String) (l : List String)
    (hw : w.data ≠ []) : joinWords (w :: l) ≠ "" := by
  cases l with
  | nil =>
    intro h
    exact hw (by rw [show w = "" from h])
  | cons x xs =>
    intro h
    have hdata : (w ++ " " ++ joinWords (x :: xs)).data = [] := by
      rw [show w ++ " " ++ joinWords (x :: xs) = "" from h]
    rw [data_append, data_append] at hdata
    simp at hdata

theorem choice_eq_getD (ws : List String) (x : Nat) :
    choice ws x = ws.getD (x % ws.length) "" := rfl

theorem choice_single (w : String) (x : Nat) : choice [w] x = w := by
  rw [choice_eq_getD, show ([w] : List String).length = 1 from rfl,
    Nat.mod_one]
  rfl

/-! ### Claim theorems -/

/-- C1: for every key of the literal training_data map and every word
sequence whose trailing 3-word context is exactly that key, a generation
step looks the key up successfully and appends one of its listed
candidate words. -/
theorem spec_c1_key_lookup_appends_candidate (k v seq : List String)
    (r : Nat → Nat) (i fuel : Nat) (hk : (k, v) ∈ training_data)
    (hseq : lastN 3 seq = k) (hf : fuel ≠ 0) :
    ∃ w, w ∈ v ∧ genLoop my_llm r fuel i seq =
      genLoop my_llm r (fuel - 1) (i + 1) (seq ++ [w]) := by
  have hlook : lookupKey training_data k = some v := lookup_of_mem k v hk
  have hstep : genStep my_llm seq (r i) = some (choice v (r i)) := by
    apply genStep_eq_some
    show lookupKey training_data (lastN 3 seq) = some v
    rw [hseq]
    exact hlook
  exact ⟨choice v (r i),
    choice_mem v (r i) (training_values_ne_nil k v hlook),
    genLoop_of_step_some my_llm r fuel i seq _ hf hstep⟩

/-- Witness for C1 at the key ("kitne", "aadmi"). -/
theorem spec_c1_witness : ∃ w, w ∈ (["the?"] : List String) ∧
    genLoop my_llm (fun _ => 0) 1 0 ["kitne", "aadmi"] =
      genLoop my_llm (fun _ => 0) 0 1 (["kitne", "aadmi"] ++ [w]) :=
  spec_c1_key_lookup_appends_candidate ["kitne", "aadmi"] ["the?"]
    ["kitne", "aadmi"] (fun _ => 0) 0 1 (by decide) (by decide) (by decide)

/-- C2: for every possible sequence of random draws,
generate("Bade bade deshon mein", 10) starts from the sequence
[bade, bade, deshon, mein]; neither the trailing 3-word context
(bade, deshon, mein) nor the 1-word fallback (mein) is a key, so zero
words are appended, the stuck notice fires, and the returned string is
"bade bade deshon mein". -/
theorem spec_c2_bade_bade_run (r : Nat → Nat) :
    generate_text my_llm r "Bade bade deshon mein" 10 =
      ("bade bade deshon mein", true) := rfl

/-- C3: with a zero step bound, generation appends nothing and returns
exactly the normalization of the input (lowercased, with every . and ?
removed, split on whitespace, re-joined with single spaces), for every
input string and every history size, with no stuck notice. -/
theorem spec_c3_zero_steps_identity (hist : Nat) (r : Nat → Nat) (x : String) :
    generate_text ⟨training_data, hist⟩ r x 0 =
      (joinWords (normalizeText x), false) := rfl

/-- C5: for every possible sequence of random draws, generate("chai", 5)
starts from the one-word sequence [chai]; the trailing-window context
(chai) is not a key (and the fallback retries the same one-word context),
so generation is stuck at once, appends nothing, and returns "chai". -/
theorem spec_c5_chai_run (r : Nat → Nat) :
    generate_text my_llm r "chai" 5 = ("chai", true) := rfl

/-- C8: for every starting text, step bound n, and sequence of random
draws, the word sequence grows only by appending: the final sequence is
the normalized input followed by at most n appended words, and the
returned string is that extended sequence joined with spaces. -/
theorem spec_c8_monotone_growth (x : String) (n : Nat) (r : Nat → Nat) :
    ∃ app : List String, app.length ≤ n ∧
      (genLoop my_llm r n 0 (normalizeText x)).1 = normalizeText x ++ app ∧
      (generate_text my_llm r x n).1 = joinWords (normalizeText x ++ app) := by
  obtain ⟨app, happ, hlen⟩ := genLoop_fst_append my_llm r n 0 (normalizeText x)
  refine ⟨app, hlen, happ, ?_⟩
  rw [show (generate_text my_llm r x n).1 =
      joinWords (genLoop my_llm r n 0 (normalizeText x)).1 from rfl, happ]

/-- C9: a call of the generate_text method leaves the predictor state
unchanged: the embedded method (whose Python body assigns to no field of
self) returns the receiver as its post-state, so the training_data map
and the history_size after the call are exactly those from
construction. -/
theorem spec_c9_no_mutation (llm : SequenceLLM) (r : Nat → Nat)
    (x : String) (n : Nat) :
    (generate_text_method llm r x n).1 = llm ∧
    (generate_text_method llm r x n).1.training_data = llm.training_data ∧
    (generate_text_method llm r x n).1.history_size = llm.history_size :=
  ⟨rfl, rfl, rfl⟩

theorem c4_run (r : Nat → Nat) (w : String)
    (hch : choice ["Sardar", "do", "the."] (r 1) = w)
    (h3 : genStep my_llm ["kitne", "aadmi", "the?", w] (r 2) = none) :
    genLoop my_llm r 5 0 ["kitne", "aadmi"] =
      (["kitne", "aadmi", "the?", w], true) ∧
    generate_text my_llm r "Kitne aadmi" 5 =
      ("kitne aadmi the? " ++ w, true) := by
  have h0 : genStep my_llm ["kitne", "aadmi"] (r 0) = some "the?" := by
    rw [genStep_eq_some my_llm ["kitne", "aadmi"] (r 0) ["the?"] rfl,
      choice_single]
  have h1 : genStep my_llm ["kitne", "aadmi", "the?"] (r 1) = some w := by
    rw [genStep_eq_some my_llm ["kitne", "aadmi", "the?"] (r 1)
      ["Sardar", "do", "the."] rfl, hch]
  have e1 : genLoop my_llm r 5 0 ["kitne", "aadmi"] =
      genLoop my_llm r 4 1 ["kitne", "aadmi", "the?"] := by
    simpa using genLoop_of_step_some my_llm r 5 0 ["kitne", "aadmi"]
      "the?" (by decide) h0
  have e2 : genLoop my_llm r 4 1 ["kitne", "aadmi", "the?"] =
      genLoop my_llm r 3 2 ["kitne", "aadmi", "the?", w] := by
    simpa using genLoop_of_step_some my_llm r 4 1
      ["kitne", "aadmi", "the?"] w (by decide) h1
  have e3 : genLoop my_llm r 3 2 ["kitne", "aadmi", "the?", w] =
      (["kitne", "aadmi", "the?", w], true) :=
    genLoop_of_step_none my_llm r 3 2 ["kitne", "aadmi", "the?", w]
      (by decide) h3
  have hloop : genLoop my_llm r 5 0 ["kitne", "aadmi"] =
      (["kitne", "aadmi", "the?", w], true) := by rw [e1, e2, e3]
  refine ⟨hloop, ?_⟩
  have hgen : generate_text my_llm r "Kitne aadmi" 5 =
      (joinWords (genLoop my_llm r 5 0 ["kitne", "aadmi"]).1,
       (genLoop my_llm r 5 0 ["kitne", "aadmi"]).2) := rfl
  rw [hgen, hloop]
  rfl

/-- C4: for generate("Kitne aadmi", 5) under every possible sequence of
random draws: the initial sequence is [kitne, aadmi]; the first step
matches the key (kitne, aadmi) and appends "the?"; the second step
matches (kitne, aadmi, the?) and appends one of Sardar, do, the.; the
third step finds no 3-word and no 1-word match, so generation halts
stuck after exactly 2 appended words, before the 5 steps are
exhausted. -/
theorem spec_c4_kitne_aadmi_run (r : Nat → Nat) :
    ∃ w, w ∈ (["Sardar", "do", "the."] : List String) ∧
      genLoop my_llm r 5 0 ["kitne", "aadmi"] =
        (["kitne", "aadmi", "the?", w], true) ∧
      generate_text my_llm r "Kitne aadmi" 5 =
        ("kitne aadmi the? " ++ w, true) := by
  have hlt : r 1 % 3 < 3 := Nat.mod_lt _ (by decide)
  have hc : r 1 % 3 = 0 ∨ r 1 % 3 = 1 ∨ r 1 % 3 = 2 := by omega
  rcases hc with hc | hc | hc
  · obtain ⟨ha, hb⟩ := c4_run r "Sardar"
      (by rw [choice_eq_getD,
        show (["Sardar", "do", "the."] : List String).length = 3 from rfl,
        hc]; rfl) rfl
    exact ⟨"Sardar", by decide, ha, hb⟩
  · obtain ⟨ha, hb⟩ := c4_run r "do"
      (by rw [choice_eq_getD,
        show (["Sardar", "do", "the."] : List String).length = 3 from rfl,
        hc]; rfl) rfl
    exact ⟨"do", by decide, ha, hb⟩
  · obtain ⟨ha, hb⟩ := c4_run r "the."
      (by rw [choice_eq_getD,
        show (["Sardar", "do", "the."] : List String).length = 3 from rfl,
        hc]; rfl) rfl
    exact ⟨"the.", by decide, ha, hb⟩

/-- C6 counterexample: on the empty input with step bound 1 the stuck
condition fires (flag true) and yet the returned string is empty, so the
claim that generation stuck always returns a non-empty string is false
at this input. -/
theorem spec_c6_counterexample :
    (generate_text my_llm (fun _ => 0) "" 1).2 = true ∧
    (generate_text my_llm (fun _ => 0) "" 1).1 = "" :=
  ⟨rfl, rfl⟩

/-- C6 (amended): for every input string, step bound and sequence of
random draws, whenever generation terminates stuck, the stuck notice is
emitted and the call still returns normally, with the partly generated
sequence joined as a string; that string is non-empty whenever the
normalized input has at least one word (it is empty exactly in the
zero-word-input case). The embedded generate_text is a total function,
so no invocation raises an exception. -/
theorem spec_c6_amended_stuck_returns_join (x : String) (n : Nat)
    (r : Nat → Nat) (hstuck : (generate_text my_llm r x n).2 = true) :
    ∃ seq : List String,
      generate_text my_llm r x n = (joinWords seq, true) ∧
      (∃ app, seq = normalizeText x ++ app) ∧
      (normalizeText x ≠ [] → joinWords seq ≠ "") := by
  obtain ⟨app, happ, hlen⟩ := genLoop_fst_append my_llm r n 0 (normalizeText x)
  have hs2 : (genLoop my_llm r n 0 (normalizeText x)).2 = true := hstuck
  refine ⟨(genLoop my_llm r n 0 (normalizeText x)).1, ?_, ⟨app, happ⟩, ?_⟩
  · show (joinWords (genLoop my_llm r n 0 (normalizeText x)).1,
        (genLoop my_llm r n 0 (normalizeText x)).2) =
      (joinWords (genLoop my_llm r n 0 (normalizeText x)).1, true)
    rw [hs2]
  · intro hne
    cases hcase : normalizeText x with
    | nil => exact absurd hcase hne
    | cons hd tl =>
      have hmem : hd ∈ normalizeText x := by
        rw [hcase]
        exact List.mem_cons_self _ _
      have hhd : hd.data ≠ [] := splitWordsAux_mem_ne _ [] hd hmem
      rw [hcase] at happ
      rw [happ, List.cons_append]
      exact joinWords_ne_empty hd (tl ++ app) hhd

/-- Witness for the amended C6 at the stuck run generate("chai", 5). -/
theorem spec_c6_witness :
    ∃ seq : List String,
      generate_text my_llm (fun _ => 0) "chai" 5 = (joinWords seq, true) ∧
      (∃ app, seq = normalizeText "chai" ++ app) ∧
      (normalizeText "chai" ≠ [] → joinWords seq ≠ "") :=
  spec_c6_amended_stuck_returns_join "chai" 5 (fun _ => 0) (by decide)

/-- C7: when the trailing history_size-word context misses, the step
consults exactly the trailing 1-word context and nothing else: a 1-word
hit appends one of its candidates, a 1-word miss stops the whole loop at
once with the stuck flag; and intermediate window sizes are never
consulted, witnessed on the literal map by a sequence whose trailing
2-word context is the key (chai, garam) yet whose step is stuck. -/
theorem spec_c7_fallback_exactly_one (llm : SequenceLLM)
    (seq : List String) (x : Nat)
    (h : lookupKey llm.training_data (lastN llm.history_size seq) = none) :
    (∀ v, lookupKey llm.training_data (lastN 1 seq) = some v →
        genStep llm seq x = some (choice v x)) ∧
    (lookupKey llm.training_data (lastN 1 seq) = none →
        genStep llm seq x = none ∧
        ∀ (r : Nat → Nat) (fuel i : Nat), fuel ≠ 0 →
          genLoop llm r fuel i seq = (seq, true)) ∧
    (lookupKey training_data (lastN 2 ["x0", "chai", "garam"]) =
        some ["hai"] ∧
      ∀ y : Nat, genStep my_llm ["x0", "chai", "garam"] y = none) := by
  refine ⟨?_, ?_, by decide, fun y => rfl⟩
  · intro v hv
    unfold genStep
    rw [h, hv]
  · intro h1
    refine ⟨genStep_eq_none llm seq x h h1, fun r fuel i hf => ?_⟩
    exact genLoop_of_step_none llm r fuel i seq hf
      (genStep_eq_none llm seq (r i) h h1)

/-- Witness for C7 at the predictor my_llm and the sequence [chai]. -/
theorem spec_c7_witness :
    (∀ v, lookupKey my_llm.training_data (lastN 1 ["chai"]) = some v →
        genStep my_llm ["chai"] 0 = some (choice v 0)) ∧
    (lookupKey my_llm.training_data (lastN 1 ["chai"]) = none →
        genStep my_llm ["chai"] 0 = none ∧
        ∀ (r : Nat → Nat) (fuel i : Nat), fuel ≠ 0 →
          genLoop my_llm r fuel i ["chai"] = (["chai"], true)) ∧
    (lookupKey training_data (lastN 2 ["x0", "chai", "garam"]) =
        some ["hai"] ∧
      ∀ y : Nat, genStep my_llm ["x0", "chai", "garam"] y = none) :=
  spec_c7_fallback_exactly_one my_llm ["chai"] 0 (by decide)

/-- C10: every key of the literal training_data has length 2 or 3 (no
1-word keys), hence for the literal predictor the 1-word fallback lookup
never succeeds: a missing trailing-window context always halts the step,
and every appended word comes from a successful lookup of the
trailing-window context itself. -/
theorem spec_c10_no_one_word_keys :
    (∀ p ∈ training_data, p.1.length = 2 ∨ p.1.length = 3) ∧
    (∀ seq : List String, lookupKey training_data (lastN 1 seq) = none) ∧
    (∀ (seq : List String) (x : Nat),
      lookupKey training_data (lastN 3 seq) = none →
        genStep my_llm seq x = none) ∧
    (∀ (seq : List String) (x : Nat) (w : String),
      genStep my_llm seq x = some w →
        ∃ v, lookupKey training_data (lastN 3 seq) = some v ∧
          w = choice v x ∧ w ∈ v) := by
  have hkeys : ∀ p ∈ training_data, p.1.length = 2 ∨ p.1.length = 3 := by
    decide
  have h1 : ∀ seq : List String,
      lookupKey training_data (lastN 1 seq) = none := by
    intro seq
    cases hcase : lookupKey training_data (lastN 1 seq) with
    | none => rfl
    | some v =>
      exfalso
      have hmem := lookupKey_mem _ _ _ hcase
      have hlen2 := hkeys _ hmem
      simp only at hlen2
      have hlen : (lastN 1 seq).length ≤ 1 := by
        unfold lastN
        simp [List.length_drop]
        omega
      omega
  refine ⟨hkeys, h1, ?_, ?_⟩
  · intro seq x h
    exact genStep_eq_none my_llm seq x h (h1 seq)
  · intro seq x w hw
    cases hcase : lookupKey training_data (lastN 3 seq) with
    | none =>
      rw [genStep_eq_none my_llm seq x hcase (h1 seq)] at hw
      exact Option.noConfusion hw
    | some v =>
      rw [genStep_eq_some my_llm seq x v hcase] at hw
      have hwv := Option.some.inj hw
      subst hwv
      exact ⟨v, rfl, rfl,
        choice_mem v x (training_values_ne_nil _ v hcase)⟩
